import Mathlib

/-!
Verification of the `simple-mcp` repository: a single operation
`get_host_info` that gathers three host-identity strings from the
operating system's reporting facility (`platform.system()`,
`platform.machine()`, `platform.platform()`), places them in a dict
with keys `os`, `architecture`, `platform` (in that insertion order)
and serializes the dict with `json.dumps` using its default settings
(separators `", "` and `": "`, `ensure_ascii=True`).

The embedding models:
  * the host state (the three strings the OS facility reports);
  * Python's `json.dumps` serialization of a string-valued object,
    including the default `ensure_ascii` escaping of every character
    outside printable ASCII as `\uXXXX` (with surrogate pairs above
    the BMP) and the short escapes for `\" \\ \b \t \n \f \r`;
  * a JSON parser for the string-valued-object fragment of JSON
    (sufficient for every output of this program), used to state the
    schema and round-trip properties;
  * a fallible variant of the OS facility, to state the
    error-propagation policy.
-/

/-- Lowercase hexadecimal digits of `n` as four characters, exactly the
`%04x` formatting `json.dumps` uses inside a `\uXXXX` escape
(only applied to `n < 0x10000`). -/
def toHex4 (n : Nat) : List Char :=
  [Nat.digitChar (n / 4096 % 16), Nat.digitChar (n / 256 % 16),
   Nat.digitChar (n / 16 % 16), Nat.digitChar (n % 16)]

/-- Python `json.dumps` escaping of one character with the default
`ensure_ascii=True` (CPython `py_encode_basestring_ascii`): short escapes
for quote, backslash and the five named control characters, printable
ASCII passed through, everything else as `\uXXXX`, using a surrogate
pair for code points above `0xFFFF`. -/
def escapeChar (c : Char) : List Char :=
  if c = '"' then ['\\', '"']
  else if c = '\\' then ['\\', '\\']
  else if c.toNat = 8 then ['\\', 'b']
  else if c.toNat = 9 then ['\\', 't']
  else if c.toNat = 10 then ['\\', 'n']
  else if c.toNat = 12 then ['\\', 'f']
  else if c.toNat = 13 then ['\\', 'r']
  else if 0x20 ≤ c.toNat ∧ c.toNat < 0x7f then [c]
  else if c.toNat < 0x10000 then '\\' :: 'u' :: toHex4 c.toNat
  else
    ('\\' :: 'u' :: toHex4 (0xd800 + (c.toNat - 0x10000) / 0x400)) ++
    ('\\' :: 'u' :: toHex4 (0xdc00 + (c.toNat - 0x10000) % 0x400))

/-- Escape every character of a string body. -/
def escList (cs : List Char) : List Char := (cs.map escapeChar).flatten

/-- `json.dumps` applied to a single Python `str`: the escaped body in
double quotes. -/
def jsonEncodeString (s : String) : String :=
  String.mk ('"' :: (escList s.data ++ ['"']))

/-- One `key: value` member as `json.dumps` renders it with the default
item separator `": "`. -/
def dumpsMember (kv : String × String) : String :=
  jsonEncodeString kv.1 ++ ": " ++ jsonEncodeString kv.2

/-- `json.dumps` of a string-valued dict, members in insertion order,
joined by the default separator `", "` and wrapped in braces.  This is
exactly what `json.dumps` produces on such a dict with its default
arguments. -/
def dumpsObj (kvs : List (String × String)) : String :=
  "\x7b" ++ String.intercalate ", " (kvs.map dumpsMember) ++ "\x7d"

/-- The host state: the three values the OS identity-reporting facility
returns at call time for `platform.system()`, `platform.machine()` and
`platform.platform()`. -/
structure HostState where
  system : String
  machine : String
  platform : String

namespace tools

/-- `get_host_info` from `src/tools.py`: builds the dict
`{"os": platform.system(), "architecture": platform.machine(),
"platform": platform.platform()}` and returns `json.dumps` of it. -/
def get_host_info (h : HostState) : String :=
  dumpsObj [("os", h.system), ("architecture", h.machine), ("platform", h.platform)]

end tools

/-! ### A JSON parser for the string-valued-object fragment

Every output of this program is a JSON object whose values are strings,
so a parser for that fragment of JSON suffices to state the schema and
round-trip claims.  The parser follows RFC 8259 / Python `json.loads`
(strict mode) on this fragment: optional whitespace around tokens,
string literals with the eight short escapes and `\uXXXX` (surrogate
pairs combined), unescaped control characters rejected.  Recursion is
bounded by fuel; the top-level entry supplies `length + 1` fuel, which
is sufficient for every input since each step consumes at least one
character. -/

/-- Value of one hexadecimal digit character, upper or lower case. -/
def hexVal (c : Char) : Option Nat :=
  if '0' ≤ c ∧ c ≤ '9' then some (c.toNat - 48)
  else if 'a' ≤ c ∧ c ≤ 'f' then some (c.toNat - 87)
  else if 'A' ≤ c ∧ c ≤ 'F' then some (c.toNat - 55)
  else none

/-- Read exactly four hexadecimal digits (the `XXXX` of a `\uXXXX`
escape) from the front of the input. -/
def parse4Hex : List Char → Option (Nat × List Char)
  | a :: b :: c :: d :: rest =>
    match hexVal a, hexVal b, hexVal c, hexVal d with
    | some va, some vb, some vc, some vd =>
      some (va * 4096 + vb * 256 + vc * 16 + vd, rest)
    | _, _, _, _ => none
  | _ => none

/-- Decode one escape sequence (the part after the backslash): the eight
single-character escapes, or `\uXXXX`, combining a high surrogate with a
following `\uXXXX` low surrogate into one code point. -/
def decodeEsc (e : Char) (rest : List Char) : Option (Char × List Char) :=
  if e = '"' then some ('"', rest)
  else if e = '\\' then some ('\\', rest)
  else if e = '/' then some ('/', rest)
  else if e = 'b' then some (Char.ofNat 8, rest)
  else if e = 'f' then some (Char.ofNat 12, rest)
  else if e = 'n' then some ('\n', rest)
  else if e = 'r' then some (Char.ofNat 13, rest)
  else if e = 't' then some (Char.ofNat 9, rest)
  else if e = 'u' then
    match parse4Hex rest with
    | none => none
    | some (n, rest1) =>
      if n < 0xd800 ∨ 0xe000 ≤ n then some (Char.ofNat n, rest1)
      else if n < 0xdc00 then
        match rest1 with
        | '\\' :: 'u' :: rest2 =>
          match parse4Hex rest2 with
          | none => none
          | some (m, rest3) =>
            if 0xdc00 ≤ m ∧ m < 0xe000 then
              some (Char.ofNat (0x10000 + (n - 0xd800) * 0x400 + (m - 0xdc00)), rest3)
            else none
        | _ => none
      else none
  else none

/-- Decode one logical character of a JSON string body: either a literal
character (anything but `"`, `\` and control characters) or a backslash
escape. -/
def decodeOne : List Char → Option (Char × List Char)
  | [] => none
  | c :: rest =>
    if c = '\\' then
      match rest with
      | [] => none
      | e :: rest1 => decodeEsc e rest1
    else if c = '"' ∨ c.toNat < 0x20 then none
    else some (c, rest)

/-- Parse the body of a JSON string literal up to and past the closing
quote, returning the decoded characters and the remaining input. -/
def parseStringBodyF : Nat → List Char → Option (List Char × List Char)
  | 0, _ => none
  | fuel + 1, l =>
    match l with
    | '"' :: rest => some ([], rest)
    | _ =>
      match decodeOne l with
      | some (c, rest) =>
        match parseStringBodyF fuel rest with
        | some (cs, r) => some (c :: cs, r)
        | none => none
      | none => none

/-- Parse a JSON string literal (opening quote, body, closing quote). -/
def parseJsonStringF (fuel : Nat) (l : List Char) : Option (String × List Char) :=
  match l with
  | '"' :: rest =>
    match parseStringBodyF fuel rest with
    | some (cs, r) => some (String.mk cs, r)
    | none => none
  | _ => none

/-- JSON insignificant whitespace. -/
def isJsonWs (c : Char) : Bool := c == ' ' || c == '\t' || c == '\n' || c == '\r'

/-- Drop leading JSON whitespace. -/
def skipWs : List Char → List Char
  | [] => []
  | c :: l => if isJsonWs c then skipWs l else c :: l

/-- Parse one `"key": "value"` object member (string-valued fragment). -/
def parseMemberF (fuel : Nat) (l : List Char) : Option ((String × String) × List Char) :=
  match parseJsonStringF fuel (skipWs l) with
  | some (k, l1) =>
    match skipWs l1 with
    | ':' :: l2 =>
      match parseJsonStringF fuel (skipWs l2) with
      | some (v, l3) => some ((k, v), l3)
      | none => none
    | _ => none
  | none => none

/-- Parse a non-empty comma-separated member list, returning the members
in source order (the order the serializer wrote them). -/
def parseMembersF (strFuel : Nat) : Nat → List Char → Option (List (String × String) × List Char)
  | 0, _ => none
  | memFuel + 1, l =>
    match parseMemberF strFuel l with
    | some (kv, l1) =>
      match skipWs l1 with
      | ',' :: l2 =>
        match parseMembersF strFuel memFuel l2 with
        | some (kvs, r) => some (kv :: kvs, r)
        | none => none
      | l2 => some ([kv], l2)
    | none => none

/-- Parse a complete JSON document consisting of one object with string
values: optional whitespace, `{`, members, `}`, optional whitespace,
end of input.  Returns the members in source order. -/
def parseObj (s : String) : Option (List (String × String)) :=
  match skipWs s.data with
  | '{' :: l1 =>
    match skipWs l1 with
    | '}' :: l2 => if skipWs l2 = [] then some [] else none
    | l2 =>
      match parseMembersF (s.length + 1) (s.length + 1) l2 with
      | some (kvs, r) =>
        match skipWs r with
        | '}' :: r2 => if skipWs r2 = [] then some kvs else none
        | _ => none
      | none => none
  | _ => none

/-! ### Remaining model: the fallible OS facility, the MCP registration
of `src/main.py`, and the standalone entry point of `src/tools.py` -/

/-- The OS identity-reporting facility when its three reads may fail:
each of `platform.system()`, `platform.machine()`, `platform.platform()`
either returns a string or raises an error of type `ε`. -/
structure OSFacility (ε : Type) where
  system : Except ε String
  machine : Except ε String
  platform : Except ε String

namespace tools

/-- `get_host_info` from `src/tools.py` over the fallible facility: the
dict literal evaluates `platform.system()`, `platform.machine()` and
`platform.platform()` in that textual order; the function has no
`try`/`except`, so a raised error aborts the call and propagates. -/
def get_host_info_exc {ε : Type} (f : OSFacility ε) : Except ε String := do
  let s ← f.system
  let m ← f.machine
  let p ← f.platform
  pure (dumpsObj [("os", s), ("architecture", m), ("platform", p)])

/-- The `if __name__ == "__main__"` entry point of `src/tools.py`:
`print(get_host_info())` writes the returned string followed by one
newline to standard output, and a Python script that finishes without an
uncaught exception exits with status 0.  The pair is
(text written to stdout, exit status). -/
def runMain (h : HostState) : String × Nat :=
  (get_host_info h ++ "\n", 0)

end tools

namespace main

/-- `get_host_info` from `src/main.py`: the function body under the
`@mcp.tool()` decorator, identical to the one in `src/tools.py`. -/
def get_host_info (h : HostState) : String :=
  dumpsObj [("os", h.system), ("architecture", h.machine), ("platform", h.platform)]

/-- `src/main.py`'s `get_host_info` over the fallible facility (same body
as `tools.get_host_info_exc`; no local error handling). -/
def get_host_info_exc {ε : Type} (f : OSFacility ε) : Except ε String := do
  let s ← f.system
  let m ← f.machine
  let p ← f.platform
  pure (dumpsObj [("os", s), ("architecture", m), ("platform", p)])

/-- The tools the `FastMCP("System Info Service")` instance holds after
the `@mcp.tool()` decorator runs: one tool, named after the decorated
function, invoking that function. -/
def registeredTools : List (String × (HostState → String)) :=
  [("get_host_info", get_host_info)]

end main

/-- The characters of one serialized member after its opening quote:
escaped key, `": "`, quoted escaped value, then `rest`. -/
def objTail (k v : String) (rest : List Char) : List Char :=
  escList k.data ++ ('"' :: ':' :: ' ' :: '"' :: (escList v.data ++ ('"' :: rest)))

/-! ### Round-trip lemmas: the parser inverts the serializer -/

theorem hexVal_digitChar : ∀ d, d < 16 → hexVal (Nat.digitChar d) = some d := by decide

theorem parse4Hex_toHex4 (n : Nat) (hn : n < 65536) (rest : List Char) :
    parse4Hex (toHex4 n ++ rest) = some (n, rest) := by
  have h1 : n / 4096 % 16 < 16 := Nat.mod_lt _ (by norm_num)
  have h2 : n / 256 % 16 < 16 := Nat.mod_lt _ (by norm_num)
  have h3 : n / 16 % 16 < 16 := Nat.mod_lt _ (by norm_num)
  have h4 : n % 16 < 16 := Nat.mod_lt _ (by norm_num)
  simp only [toHex4, List.cons_append, List.nil_append, parse4Hex,
    hexVal_digitChar _ h1, hexVal_digitChar _ h2, hexVal_digitChar _ h3,
    hexVal_digitChar _ h4]
  congr 2
  omega

theorem char_toNat_valid (c : Char) :
    c.toNat < 55296 ∨ (57343 < c.toNat ∧ c.toNat < 1114112) := c.valid

theorem decodeOne_escapeChar (c : Char) (rest : List Char) :
    decodeOne (escapeChar c ++ rest) = some (c, rest) := by
  have hv := char_toNat_valid c
  unfold escapeChar
  split_ifs with h1 h2 h3 h4 h5 h6 h7 h8 h9
  · subst h1; simp [decodeOne, decodeEsc]
  · subst h2; simp [decodeOne, decodeEsc]
  · simp only [List.cons_append, List.nil_append]
    simp [decodeOne, decodeEsc]
    rw [← Char.ofNat_toNat c, h3]
  · simp only [List.cons_append, List.nil_append]
    simp [decodeOne, decodeEsc]
    rw [← Char.ofNat_toNat c, h4]
  · simp only [List.cons_append, List.nil_append]
    simp [decodeOne, decodeEsc]
    rw [← Char.ofNat_toNat c, h5]
  · simp only [List.cons_append, List.nil_append]
    simp [decodeOne, decodeEsc]
    rw [← Char.ofNat_toNat c, h6]
  · simp only [List.cons_append, List.nil_append]
    simp [decodeOne, decodeEsc]
    rw [← Char.ofNat_toNat c, h7]
  · simp only [List.cons_append, List.nil_append, decodeOne]
    rw [if_neg h2, if_neg (by push_neg; exact ⟨h1, by omega⟩)]
  · simp only [List.cons_append]
    simp [decodeOne, decodeEsc, parse4Hex_toHex4 _ h9]
    intro ha hb
    exfalso
    omega
  · simp only [List.cons_append, List.append_assoc]
    have hhi : 55296 + (c.toNat - 65536) / 1024 < 65536 := by omega
    have hlo : 56320 + (c.toNat - 65536) % 1024 < 65536 := by omega
    simp [decodeOne, decodeEsc, parse4Hex_toHex4 _ hhi, parse4Hex_toHex4 _ hlo]
    rw [if_neg (show ¬57344 ≤ 55296 + (c.toNat - 65536) / 1024 by omega)]
    rw [if_pos (show 55296 + (c.toNat - 65536) / 1024 < 56320 by omega)]
    rw [if_pos (show 56320 + (c.toNat - 65536) % 1024 < 57344 by omega)]
    have harg : 65536 + (c.toNat - 65536) / 1024 * 1024 + (c.toNat - 65536) % 1024 = c.toNat := by
      omega
    rw [harg, Char.ofNat_toNat]

theorem escapeChar_shape (c : Char) : ∃ hd tl, escapeChar c = hd :: tl ∧ hd ≠ '"' := by
  unfold escapeChar
  split_ifs with h1 h2 h3 h4 h5 h6 h7 h8 h9
  case pos => exact ⟨'\\', _, rfl, by decide⟩
  all_goals first
    | exact ⟨'\\', _, rfl, by decide⟩
    | exact ⟨c, [], rfl, h1⟩

theorem parseStringBodyF_step (c : Char) (t : List Char) (fuel : Nat) :
    parseStringBodyF (fuel + 1) (escapeChar c ++ t) =
      match parseStringBodyF fuel t with
      | some (cs, r) => some (c :: cs, r)
      | none => none := by
  obtain ⟨hd, tl, he, hne⟩ := escapeChar_shape c
  have hdec : decodeOne (escapeChar c ++ t) = some (c, t) := decodeOne_escapeChar c t
  rw [he] at hdec ⊢
  simp only [List.cons_append] at hdec ⊢
  simp only [parseStringBodyF]
  split
  · next heq => exact absurd (List.cons.injEq _ _ _ _ ▸ heq).1 hne
  · rw [hdec]

theorem parseStringBodyF_escList (cs : List Char) :
    ∀ fuel rest, cs.length < fuel →
      parseStringBodyF fuel (escList cs ++ ('"' :: rest)) = some (cs, rest) := by
  induction cs with
  | nil =>
    intro fuel rest h
    cases fuel with
    | zero => omega
    | succ f => simp [escList, parseStringBodyF]
  | cons c cs ih =>
    intro fuel rest h
    cases fuel with
    | zero => omega
    | succ f =>
      have he : escList (c :: cs) ++ ('"' :: rest) =
          escapeChar c ++ (escList cs ++ ('"' :: rest)) := by
        simp [escList]
      rw [he, parseStringBodyF_step, ih f rest (by simp at h; omega)]

theorem parseJsonStringF_enc (s : String) (fuel : Nat) (rest : List Char)
    (h : s.data.length < fuel) :
    parseJsonStringF fuel ('"' :: (escList s.data ++ ('"' :: rest))) = some (s, rest) := by
  simp only [parseJsonStringF]
  rw [parseStringBodyF_escList s.data fuel rest h]

theorem skipWs_not_ws (c : Char) (l : List Char) (h : isJsonWs c = false) :
    skipWs (c :: l) = c :: l := by
  simp [skipWs, h]

theorem skipWs_space (l : List Char) : skipWs (' ' :: l) = skipWs l := by
  simp [skipWs, isJsonWs]

theorem skipWs_quote (l : List Char) : skipWs ('"' :: l) = '"' :: l := by
  simp [skipWs, isJsonWs]

theorem skipWs_colon (l : List Char) : skipWs (':' :: l) = ':' :: l := by
  simp [skipWs, isJsonWs]

theorem skipWs_comma (l : List Char) : skipWs (',' :: l) = ',' :: l := by
  simp [skipWs, isJsonWs]

theorem skipWs_lbrace (l : List Char) : skipWs ('{' :: l) = '{' :: l := by
  simp [skipWs, isJsonWs]

theorem skipWs_rbrace (l : List Char) : skipWs ('}' :: l) = '}' :: l := by
  simp [skipWs, isJsonWs]

theorem skipWs_nil : skipWs [] = [] := rfl

theorem dumpsMember_data (k v : String) (rest : List Char) :
    (dumpsMember (k, v)).data ++ rest = '"' :: objTail k v rest := by
  simp [dumpsMember, jsonEncodeString, String.data_append, objTail]

theorem parseMemberF_dumps (k v : String) (fuel : Nat) (rest : List Char)
    (hk : k.data.length < fuel) (hv2 : v.data.length < fuel) :
    parseMemberF fuel ((dumpsMember (k, v)).data ++ rest) = some ((k, v), rest) := by
  rw [dumpsMember_data]
  simp [parseMemberF, objTail, skipWs_space, skipWs_quote, skipWs_colon,
    parseJsonStringF_enc k fuel _ hk, parseJsonStringF_enc v fuel _ hv2]

theorem parseMemberF_space (fuel : Nat) (l : List Char) :
    parseMemberF fuel (' ' :: l) = parseMemberF fuel l := by
  simp only [parseMemberF, skipWs_space]

theorem parseMembersF_space (sf f : Nat) (l : List Char) :
    parseMembersF sf (f + 1) (' ' :: l) = parseMembersF sf (f + 1) l := by
  simp only [parseMembersF, parseMemberF_space]

theorem parseMembersF_last (sf f : Nat) (k v : String) (rest : List Char)
    (hk : k.data.length < sf) (hv2 : v.data.length < sf) :
    parseMembersF sf (f + 1) ((dumpsMember (k, v)).data ++ ('}' :: rest)) =
      some ([(k, v)], '}' :: rest) := by
  simp [parseMembersF, parseMemberF_dumps k v sf _ hk hv2, skipWs_rbrace]

theorem parseMembersF_cons (sf f : Nat) (k v : String) (rest : List Char)
    (hk : k.data.length < sf) (hv2 : v.data.length < sf) :
    parseMembersF sf (f + 1) ((dumpsMember (k, v)).data ++ (',' :: ' ' :: rest)) =
      match parseMembersF sf f (' ' :: rest) with
      | some (kvs, r) => some ((k, v) :: kvs, r)
      | none => none := by
  simp [parseMembersF, parseMemberF_dumps k v sf _ hk hv2, skipWs_comma]

theorem parseMembersF_dumps3 (k1 v1 k2 v2 k3 v3 : String) (sf f : Nat) (rest : List Char)
    (h1 : k1.data.length < sf) (h2 : v1.data.length < sf)
    (h3 : k2.data.length < sf) (h4 : v2.data.length < sf)
    (h5 : k3.data.length < sf) (h6 : v3.data.length < sf) :
    parseMembersF sf (f + 3)
      ((dumpsMember (k1, v1)).data ++ (',' :: ' ' :: ((dumpsMember (k2, v2)).data ++
        (',' :: ' ' :: ((dumpsMember (k3, v3)).data ++ ('}' :: rest)))))) =
      some ([(k1, v1), (k2, v2), (k3, v3)], '}' :: rest) := by
  rw [show f + 3 = f + 2 + 1 from rfl,
    parseMembersF_cons sf (f + 2) k1 v1 _ h1 h2,
    show f + 2 = f + 1 + 1 from rfl,
    parseMembersF_space sf (f + 1) _,
    parseMembersF_cons sf (f + 1) k2 v2 _ h3 h4,
    parseMembersF_space sf f _,
    parseMembersF_last sf f k3 v3 rest h5 h6]

theorem escapeChar_length_pos (c : Char) : 1 ≤ (escapeChar c).length := by
  unfold escapeChar
  split_ifs <;> simp [toHex4]

theorem escList_length_ge (cs : List Char) : cs.length ≤ (escList cs).length := by
  induction cs with
  | nil => simp [escList]
  | cons c cs ih =>
    have h := escapeChar_length_pos c
    simp only [escList, List.map_cons, List.flatten_cons, List.length_append,
      List.length_cons] at ih ⊢
    omega

theorem intercalate3 (s a b c : String) :
    String.intercalate s [a, b, c] = a ++ s ++ b ++ s ++ c := rfl

theorem parseMembersF_dumps3E (k1 v1 k2 v2 k3 v3 : String) (sf f : Nat) (rest : List Char)
    (h1 : k1.data.length < sf) (h2 : v1.data.length < sf)
    (h3 : k2.data.length < sf) (h4 : v2.data.length < sf)
    (h5 : k3.data.length < sf) (h6 : v3.data.length < sf) :
    parseMembersF sf (f + 3)
      ('"' :: objTail k1 v1 (',' :: ' ' :: ('"' :: objTail k2 v2 (',' :: ' ' ::
        ('"' :: objTail k3 v3 ('}' :: rest)))))) =
      some ([(k1, v1), (k2, v2), (k3, v3)], '}' :: rest) := by
  rw [← dumpsMember_data k3 v3 ('}' :: rest), ← dumpsMember_data k2 v2 _,
    ← dumpsMember_data k1 v1 _]
  exact parseMembersF_dumps3 k1 v1 k2 v2 k3 v3 sf f rest h1 h2 h3 h4 h5 h6

theorem objTail_length (k v : String) (rest : List Char) :
    (objTail k v rest).length =
      (escList k.data).length + (escList v.data).length + rest.length + 5 := by
  simp [objTail]
  omega

theorem dumpsObj3_data (k1 v1 k2 v2 k3 v3 : String) :
    (dumpsObj [(k1, v1), (k2, v2), (k3, v3)]).data =
      '{' :: '"' :: objTail k1 v1 (',' :: ' ' :: ('"' :: objTail k2 v2 (',' :: ' ' ::
        ('"' :: objTail k3 v3 ('}' :: ([] : List Char)))))) := by
  simp [dumpsObj, dumpsMember, jsonEncodeString, String.data_append, intercalate3, objTail]

theorem parseObj_dumps3 (k1 v1 k2 v2 k3 v3 : String) :
    parseObj (dumpsObj [(k1, v1), (k2, v2), (k3, v3)]) = some [(k1, v1), (k2, v2), (k3, v3)] := by
  have hdata := dumpsObj3_data k1 v1 k2 v2 k3 v3
  have hb1 : k1.data.length ≤ (escList k1.data).length := escList_length_ge _
  have hb2 : v1.data.length ≤ (escList v1.data).length := escList_length_ge _
  have hb3 : k2.data.length ≤ (escList k2.data).length := escList_length_ge _
  have hb4 : v2.data.length ≤ (escList v2.data).length := escList_length_ge _
  have hb5 : k3.data.length ≤ (escList k3.data).length := escList_length_ge _
  have hb6 : v3.data.length ≤ (escList v3.data).length := escList_length_ge _
  have hlen : (dumpsObj [(k1, v1), (k2, v2), (k3, v3)]).length =
      (dumpsObj [(k1, v1), (k2, v2), (k3, v3)]).data.length := rfl
  rw [hdata] at hlen
  simp only [objTail_length, List.length_cons, List.length_nil] at hlen
  obtain ⟨f, hf⟩ : ∃ f, (dumpsObj [(k1, v1), (k2, v2), (k3, v3)]).length + 1 = f + 3 :=
    ⟨(dumpsObj [(k1, v1), (k2, v2), (k3, v3)]).length - 2, by omega⟩
  have hk1 : k1.data.length < f + 3 := by omega
  have hv1 : v1.data.length < f + 3 := by omega
  have hk2 : k2.data.length < f + 3 := by omega
  have hv2 : v2.data.length < f + 3 := by omega
  have hk3 : k3.data.length < f + 3 := by omega
  have hv3 : v3.data.length < f + 3 := by omega
  simp only [parseObj]
  rw [hdata, hf]
  simp [skipWs_lbrace, skipWs_quote, skipWs_rbrace, skipWs_nil,
    parseMembersF_dumps3E k1 v1 k2 v2 k3 v3 (f + 3) f [] hk1 hv1 hk2 hv2 hk3 hv3]

/-- The central schema fact: the output of `get_host_info` parses back to
exactly its three members, keys and verbatim values, in serialization
order. -/
theorem parse_get_host_info (h : HostState) :
    parseObj (tools.get_host_info h) =
      some [("os", h.system), ("architecture", h.machine), ("platform", h.platform)] :=
  parseObj_dumps3 "os" h.system "architecture" h.machine "platform" h.platform

/-! ### ASCII lemmas -/

theorem toHex4_ascii (n : Nat) : ∀ d ∈ toHex4 n, d.toNat < 128 := by
  have hdig : ∀ m : Nat, m < 16 → (Nat.digitChar m).toNat < 128 := by decide
  intro d hd
  simp only [toHex4, List.mem_cons, List.not_mem_nil, or_false] at hd
  rcases hd with rfl | rfl | rfl | rfl <;> exact hdig _ (Nat.mod_lt _ (by norm_num))

theorem escapeChar_ascii (c : Char) : ∀ d ∈ escapeChar c, d.toNat < 128 := by
  intro d hd
  unfold escapeChar at hd
  split_ifs at hd with h1 h2 h3 h4 h5 h6 h7 h8 h9
  · simp at hd; rcases hd with rfl | rfl <;> decide
  · simp at hd; subst hd; decide
  · simp at hd; rcases hd with rfl | rfl <;> decide
  · simp at hd; rcases hd with rfl | rfl <;> decide
  · simp at hd; rcases hd with rfl | rfl <;> decide
  · simp at hd; rcases hd with rfl | rfl <;> decide
  · simp at hd; rcases hd with rfl | rfl <;> decide
  · simp at hd; subst hd; omega
  · simp only [List.mem_cons] at hd
    rcases hd with rfl | rfl | hd
    · decide
    · decide
    · exact toHex4_ascii _ _ hd
  · simp only [List.mem_append, List.mem_cons] at hd
    rcases hd with (rfl | rfl | hd) | (rfl | rfl | hd)
    · decide
    · decide
    · exact toHex4_ascii _ _ hd
    · decide
    · decide
    · exact toHex4_ascii _ _ hd

theorem escList_ascii (cs : List Char) : ∀ c ∈ escList cs, c.toNat < 128 := by
  intro c hc
  simp [escList] at hc
  obtain ⟨a, _, hca⟩ := hc
  exact escapeChar_ascii a c hca

theorem objTail_ascii (k v : String) (rest : List Char)
    (hr : ∀ c ∈ rest, c.toNat < 128) :
    ∀ c ∈ objTail k v rest, c.toNat < 128 := by
  intro c hc
  simp [objTail] at hc
  rcases hc with hc | rfl | rfl | rfl | rfl | hc | rfl | hc
  · exact escList_ascii _ _ hc
  · decide
  · decide
  · decide
  · decide
  · exact escList_ascii _ _ hc
  · decide
  · exact hr _ hc

theorem escapeChar_nonascii (d : Char) (hd : 128 ≤ d.toNat) :
    ∃ t, escapeChar d = '\\' :: 'u' :: t := by
  unfold escapeChar
  split_ifs with h1 h2 h3 h4 h5 h6 h7 h8 h9
  · subst h1; exact absurd hd (by decide)
  · subst h2; exact absurd hd (by decide)
  · exact absurd hd (by omega)
  · exact absurd hd (by omega)
  · exact absurd hd (by omega)
  · exact absurd hd (by omega)
  · exact absurd hd (by omega)
  · exact absurd hd (by omega)
  · exact ⟨toHex4 d.toNat, rfl⟩
  · exact ⟨toHex4 (55296 + (d.toNat - 65536) / 1024) ++
      ('\\' :: 'u' :: toHex4 (56320 + (d.toNat - 65536) % 1024)), rfl⟩

/-! ### The claims -/

/-- C1: every successful invocation of `get_host_info` returns a string
that parses as a JSON object with exactly the three keys `os`,
`architecture`, `platform`, each mapped to a string value — the verbatim
strings the OS facility reported for system, machine and platform. -/
theorem c1_schema_exact_keys_string_values (h : HostState) :
    parseObj (tools.get_host_info h) =
      some [("os", h.system), ("architecture", h.machine), ("platform", h.platform)] :=
  parse_get_host_info h

/-- C2: on the host state reporting system `Linux`, machine `x86_64` and
platform `Linux-5.15.0-x86_64-with-glibc2.31`, `get_host_info` returns
exactly the expected JSON string, byte for byte. -/
theorem c2_scenario_a_exact_bytes :
    tools.get_host_info ⟨"Linux", "x86_64", "Linux-5.15.0-x86_64-with-glibc2.31"⟩ =
    "\x7b\"os\": \"Linux\", \"architecture\": \"x86_64\", \"platform\": \"Linux-5.15.0-x86_64-with-glibc2.31\"\x7d" := by
  decide

/-- C3: `get_host_info` is deterministic in the host state — the output
is a function of the three OS-reported values alone, so two invocations
that observe the same three values return byte-identical strings. -/
theorem c3_deterministic_in_host_state (h1 h2 : HostState)
    (hs : h1.system = h2.system) (hm : h1.machine = h2.machine)
    (hp : h1.platform = h2.platform) :
    tools.get_host_info h1 = tools.get_host_info h2 := by
  simp [tools.get_host_info, hs, hm, hp]

theorem c3_deterministic_witness :
    tools.get_host_info ⟨"Linux", "x86_64", "p"⟩ =
      tools.get_host_info ⟨"Linux", "x86_64", "p"⟩ :=
  c3_deterministic_in_host_state ⟨"Linux", "x86_64", "p"⟩ ⟨"Linux", "x86_64", "p"⟩
    rfl rfl rfl

/-- C4: in every string `get_host_info` returns, the object keys appear
in the serialization order `os`, `architecture`, `platform`. -/
theorem c4_serialization_key_order (h : HostState) :
    (parseObj (tools.get_host_info h)).map (List.map Prod.fst) =
      some ["os", "architecture", "platform"] := by
  rw [parse_get_host_info h]
  rfl

/-- C5: the tool registered by `@mcp.tool()` in `src/main.py` and the
standalone function in `src/tools.py` are extensionally identical: on
every host state they return the same string, and over the fallible
facility one fails with a given error exactly when the other does. -/
theorem c5_tool_equals_standalone :
    (∀ t ∈ main.registeredTools, ∀ h : HostState, t.2 h = tools.get_host_info h) ∧
    (∀ (ε : Type) (f : OSFacility ε),
      main.get_host_info_exc f = tools.get_host_info_exc f) := by
  constructor
  · intro t ht h
    simp [main.registeredTools] at ht
    subst ht
    rfl
  · intro ε f
    rfl

theorem c5_tool_equals_standalone_witness :
    main.get_host_info ⟨"Linux", "x86_64", "p"⟩ =
      tools.get_host_info ⟨"Linux", "x86_64", "p"⟩ :=
  c5_tool_equals_standalone.1 ("get_host_info", main.get_host_info)
    (List.mem_singleton.mpr rfl) ⟨"Linux", "x86_64", "p"⟩

/-- C6: the standalone entry point of `src/tools.py` prints exactly the
JSON string `get_host_info` returns to standard output followed by one
newline, and exits with status 0. -/
theorem c6_entry_point_prints_json_newline_exit0 (h : HostState) :
    (tools.runMain h).1 = tools.get_host_info h ++ "\n" ∧ (tools.runMain h).2 = 0 :=
  ⟨rfl, rfl⟩

/-- C7: if any of the three OS reads raises, `get_host_info` fails with
that same error propagated unchanged — not caught, masked or defaulted —
and no output string is produced at all. -/
theorem c7_error_propagates_unchanged {ε : Type} (f : OSFacility ε) (e : ε)
    (hfail : f.system = Except.error e ∨
      ((∃ s, f.system = Except.ok s) ∧ f.machine = Except.error e) ∨
      ((∃ s, f.system = Except.ok s) ∧ (∃ m, f.machine = Except.ok m) ∧
        f.platform = Except.error e)) :
    tools.get_host_info_exc f = Except.error e := by
  obtain hs | ⟨⟨s, hs⟩, hm⟩ | ⟨⟨s, hs⟩, ⟨m, hm⟩, hp⟩ := hfail
  · simp only [tools.get_host_info_exc, hs]
    rfl
  · simp only [tools.get_host_info_exc, hs, hm]
    rfl
  · simp only [tools.get_host_info_exc, hs, hm, hp]
    rfl

theorem c7_error_propagates_witness :
    tools.get_host_info_exc
      (⟨Except.error "boom", Except.ok "x86_64", Except.ok "p"⟩ : OSFacility String) =
    Except.error "boom" :=
  c7_error_propagates_unchanged _ _ (Or.inl rfl)

/-- C8: when the OS facility reports non-empty strings (as it does on
every supported platform), all three field values in the returned JSON
are non-empty strings. -/
theorem c8_fields_non_empty (h : HostState) (h1 : h.system ≠ "")
    (h2 : h.machine ≠ "") (h3 : h.platform ≠ "") :
    ∃ l, parseObj (tools.get_host_info h) = some l ∧
      l.length = 3 ∧ ∀ kv ∈ l, kv.2 ≠ "" := by
  refine ⟨_, parse_get_host_info h, rfl, ?_⟩
  intro kv hkv
  simp only [List.mem_cons, List.not_mem_nil, or_false] at hkv
  rcases hkv with rfl | rfl | rfl
  · exact h1
  · exact h2
  · exact h3

theorem c8_fields_non_empty_witness :
    ∃ l, parseObj (tools.get_host_info ⟨"Linux", "x86_64", "p"⟩) = some l ∧
      l.length = 3 ∧ ∀ kv ∈ l, kv.2 ≠ "" :=
  c8_fields_non_empty ⟨"Linux", "x86_64", "p"⟩ (by decide) (by decide) (by decide)

/-- C9: round-trip — parsing a `get_host_info` output and re-serializing
the parsed members with the same key order and the same serialization
settings reproduces the original string exactly. -/
theorem c9_parse_reserialize_round_trip (h : HostState) :
    ∃ l, parseObj (tools.get_host_info h) = some l ∧
      dumpsObj l = tools.get_host_info h :=
  ⟨_, parse_get_host_info h, rfl⟩

/-- C10: the returned string consists only of ASCII characters; every
character with a code point of 128 or above is rendered by the escaper
as a `\uXXXX` escape sequence, so the output is pure ASCII. -/
theorem c10_output_pure_ascii (h : HostState) :
    (∀ c ∈ (tools.get_host_info h).data, c.toNat < 128) ∧
    (∀ d : Char, 128 ≤ d.toNat → ∃ t, escapeChar d = '\\' :: 'u' :: t) := by
  constructor
  · intro c hc
    have hmem : c ∈ (dumpsObj [("os", h.system), ("architecture", h.machine),
        ("platform", h.platform)]).data := hc
    rw [dumpsObj3_data] at hmem
    have htail : ∀ d ∈ ('}' : Char) :: ([] : List Char), d.toNat < 128 := by
      intro d hd
      simp only [List.mem_cons, List.not_mem_nil, or_false] at hd
      subst hd
      decide
    have h3 : ∀ d ∈ '"' :: objTail "platform" h.platform ('}' :: []), d.toNat < 128 := by
      intro d hd
      rcases List.mem_cons.mp hd with rfl | hd
      · decide
      · exact objTail_ascii _ _ _ htail _ hd
    have h2r : ∀ d ∈ ',' :: ' ' :: ('"' :: objTail "platform" h.platform ('}' :: [])),
        d.toNat < 128 := by
      intro d hd
      rcases List.mem_cons.mp hd with rfl | hd
      · decide
      rcases List.mem_cons.mp hd with rfl | hd
      · decide
      · exact h3 _ hd
    have h2 : ∀ d ∈ '"' :: objTail "architecture" h.machine
        (',' :: ' ' :: ('"' :: objTail "platform" h.platform ('}' :: []))), d.toNat < 128 := by
      intro d hd
      rcases List.mem_cons.mp hd with rfl | hd
      · decide
      · exact objTail_ascii _ _ _ h2r _ hd
    have h1r : ∀ d ∈ ',' :: ' ' :: ('"' :: objTail "architecture" h.machine
        (',' :: ' ' :: ('"' :: objTail "platform" h.platform ('}' :: [])))), d.toNat < 128 := by
      intro d hd
      rcases List.mem_cons.mp hd with rfl | hd
      · decide
      rcases List.mem_cons.mp hd with rfl | hd
      · decide
      · exact h2 _ hd
    rcases List.mem_cons.mp hmem with rfl | hmem
    · decide
    rcases List.mem_cons.mp hmem with rfl | hmem
    · decide
    · exact objTail_ascii _ _ _ h1r _ hmem
  · exact escapeChar_nonascii

theorem c10_output_pure_ascii_witness :
    ('{' : Char).toNat < 128 :=
  (c10_output_pure_ascii ⟨"Linux", "x86_64", "p"⟩).1 '{' (by decide)
